import Mathlib

/-!
Verification of the customer segmentation engine of the Online-retail
dashboard repository.  The embedding below follows
src/components/customer_charts.py: the RFM scorer calculate_rfm_scores
(lines 55-135, with its inner helpers score_values lines 73-99 and
segment_customers lines 112-128) and the cohort retention computation
get_cohort_data (lines 640-668, duplicated in
src/callbacks/customer_callbacks.py lines 120-150).

Transaction tables are lists of rows; pandas Series operations are
embedded elementwise over lists; numeric values are exact rationals
(float round-off of the source is not modelled; every concrete input
used below keeps all intermediate quantities far from any bucket
boundary, so the rational and float computations agree on them).
Fallible pandas calls (qcut with colliding bin edges, astype(int) on
NaN) are embedded as Except values.
-/

namespace OnlineRetail

/-- Calendar date carried by the InvoiceDate column (already parsed:
pd.to_datetime is upstream of everything the claims mention). -/
structure Date where
  year : Nat
  month : Nat
  day : Nat
deriving DecidableEq

/-- Gregorian leap-year rule, as used by pandas Timestamp arithmetic. -/
def isLeap (y : Nat) : Bool :=
  (y % 4 == 0 && y % 100 != 0) || (y % 400 == 0)

/-- Length of a calendar month. -/
def monthDays (y m : Nat) : Nat :=
  if m = 2 then (if isLeap y then 29 else 28)
  else if m = 4 ∨ m = 6 ∨ m = 9 ∨ m = 11 then 30 else 31

/-- Days in year y strictly before month m. -/
def daysBeforeMonth (y m : Nat) : Nat :=
  ((List.range (m - 1)).map (fun i => monthDays y (i + 1))).sum

/-- Proleptic Gregorian ordinal of a date (day 1 = 0001-01-01), the
day-number scale on which pandas computes (today - x.max()).days. -/
def dateOrd (d : Date) : Int :=
  365 * ((d.year : Int) - 1)
    + (((d.year - 1) / 4 : Nat) : Int)
    - (((d.year - 1) / 100 : Nat) : Int)
    + (((d.year - 1) / 400 : Nat) : Int)
    + (daysBeforeMonth d.year d.month : Int) + (d.day : Int)

/-- Transaction row: the columns of the input table that
calculate_rfm_scores and get_cohort_data read (InvoiceNo, CustomerID,
InvoiceDate, TotalAmount). -/
structure Txn where
  invoiceNo : Nat
  customerID : Nat
  invoiceDate : Date
  totalAmount : Rat
deriving DecidableEq

/-- Customer segmentation rule, customer_charts.py lines 112-126: the
nested if/elif over the three scores of a customer row. -/
def segment_customers (r f m : Int) : String :=
  if r ≥ 4 ∧ f ≥ 4 ∧ m ≥ 4 then "Champions"
  else if r ≥ 3 ∧ f ≥ 3 ∧ m ≥ 3 then "Loyal Customers"
  else if r ≥ 3 ∧ f ≥ 1 ∧ m ≥ 2 then "Active Customers"
  else if r ≥ 2 ∧ f ≥ 2 ∧ m ≥ 2 then "Regular Customers"
  else if r ≥ 2 ∧ f ≥ 1 then "New Customers"
  else "At Risk"

/-- Modelled from the spec wording of claim C4: the ordered rule table
(first match wins) that the segment classifier is claimed to realise.
Used only as the comparison point of the refinement proof for C4. -/
def segmentRules : List (String × (Int → Int → Int → Bool)) :=
  [("Champions", fun r f m => decide (r ≥ 4) && decide (f ≥ 4) && decide (m ≥ 4)),
   ("Loyal Customers", fun r f m => decide (r ≥ 3) && decide (f ≥ 3) && decide (m ≥ 3)),
   ("Active Customers", fun r f m => decide (r ≥ 3) && decide (f ≥ 1) && decide (m ≥ 2)),
   ("Regular Customers", fun r f m => decide (r ≥ 2) && decide (f ≥ 2) && decide (m ≥ 2)),
   ("New Customers", fun r f _ => decide (r ≥ 2) && decide (f ≥ 1)),
   ("At Risk", fun _ _ _ => true)]

/-- Modelled from the spec wording of claim C4: return the label of the
first rule whose condition matches (the rule list ends with the
catch-all At Risk rule, so the default is never reached). -/
def firstMatch (r f m : Int) : List (String × (Int → Int → Int → Bool)) → String
  | [] => "At Risk"
  | rule :: rest => if rule.2 r f m then rule.1 else firstMatch r f m rest

/-- Modelled from the spec wording of claim C4: first-matching-rule
classification over segmentRules. -/
def segmentSpec (r f m : Int) : String :=
  firstMatch r f m segmentRules

/-- Errors that the scoring code can raise.  nanToInt models the
ValueError that pandas astype(int) raises on the NaN produced by
(ranks - 1) / (max_rank - 1) when every value of the series is equal
(max_rank = 1, division 0/0); labelMismatch models the ValueError that
pd.qcut raises when duplicates=drop removes bin edges while 5 explicit
labels were supplied; emptyInput is the typed error named by the spec
(never produced by the code); keyError models the KeyError of the
column-0 lookup in get_cohort_data on an empty table. -/
inductive RfmError where
  | nanToInt
  | labelMismatch
  | emptyInput
  | keyError
deriving DecidableEq

/-- Round half to even, the rounding used by pandas Series.round(). -/
def roundHalfEven (q : Rat) : Int :=
  let f : Int := q.floor
  let r : Rat := q - (f : Rat)
  if r < 1/2 then f
  else if 1/2 < r then f + 1
  else if f % 2 = 0 then f else f + 1

/-- Clip to the score range, Series.clip(1, 5). -/
def clipScore (z : Int) : Int := max 1 (min 5 z)

/-- Dense rank of v within the series, Series.rank(method=dense,
ascending=asc): 1 plus the number of distinct values before v in the
requested direction. -/
def denseRank (asc : Bool) (xs : List Rat) (v : Rat) : Nat :=
  1 + xs.dedup.countP (fun u => if asc then decide (u < v) else decide (v < u))

/-- Dense-rank scoring branch of score_values (lines 77-83): with
max_rank the number d of distinct values, each value scores
round(((rank - 1) / (d - 1)) * 4 + 1) clipped to [1,5]. -/
def denseScore (asc : Bool) (xs : List Rat) (v : Rat) : Int :=
  let d := xs.dedup.length
  clipScore (roundHalfEven ((((denseRank asc xs v : Rat) - 1) / ((d : Rat) - 1)) * 4 + 1))

/-- Values of the series in nondecreasing order. -/
def sortedVals (xs : List Rat) : List Rat :=
  xs.insertionSort (· ≤ ·)

/-- Linearly interpolated quantile of the sorted list s at level q, the
method both numpy and pandas use to place qcut bin edges. -/
def quantileAt (s : List Rat) (q : Rat) : Rat :=
  let n := s.length
  let pos : Rat := q * ((n : Rat) - 1)
  let j : Nat := Int.toNat pos.floor
  let fr : Rat := pos - ((pos.floor : Int) : Rat)
  if j + 1 < n then s.getD j 0 + fr * (s.getD (j + 1) 0 - s.getD j 0)
  else s.getD (n - 1) 0

/-- Bin edges that pd.qcut(ys, q=5) computes: the 0,20,40,60,80,100
percentiles of the series. -/
def qcutEdges (ys : List Rat) : List Rat :=
  let s := sortedVals ys
  [quantileAt s 0, quantileAt s (1/5), quantileAt s (2/5), quantileAt s (3/5),
   quantileAt s (4/5), quantileAt s 1]

/-- Detects duplicate (necessarily adjacent, since edges are
nondecreasing) qcut bin edges, the condition on which pd.qcut raises
ValueError with duplicates=raise and drops edges with duplicates=drop. -/
def hasAdjDup : List Rat → Bool
  | a :: b :: rest => decide (a = b) || hasAdjDup (b :: rest)
  | _ => false

/-- Index (0-based) of the right-closed qcut bin of v: the number of
interior edges strictly below v.  The lowest bin includes the minimum
(pandas include-lowest adjustment of the first edge). -/
def binIdx (edges : List Rat) (v : Rat) : Nat :=
  ((edges.drop 1).take 4).countP (fun e => decide (e < v))

/-- Percentile rank, Series.rank(pct=True, ascending=asc) with the
default average tie method: the mean ordinal rank of the tie group of v
divided by the series length. -/
def pctRank (asc : Bool) (xs : List Rat) (v : Rat) : Rat :=
  let n := xs.length
  let below := if asc then xs.countP (fun u => decide (u < v))
               else xs.countP (fun u => decide (v < u))
  let ties := xs.countP (fun u => decide (u = v))
  ((below : Rat) + ((ties : Rat) + 1) / 2) / (n : Rat)

/-- Scoring rule selected by score_values (customer_charts.py lines
73-99) for a series, as a per-value function: the dense-rank branch when
fewer than 5 distinct values exist (error when all values are equal: the
0/0 NaN makes the astype(int) of line 83 raise); otherwise the plain
qcut branch (line 88 ascending: labels 1..5 on the series; line 90
descending: labels 5..1 on the negated series), falling back on
duplicate bin edges to qcut over percentile ranks with labels 1..5
(lines 94-99; the fillna(3) there is unreachable because a successful
qcut labels every value, and when duplicates=drop removes edges the
5-label list no longer matches and qcut raises instead). -/
def scoreMode (asc : Bool) (xs : List Rat) : Except RfmError (Rat → Int) :=
  if xs.dedup.length < 5 then
    if xs.dedup.length = 1 then .error .nanToInt
    else .ok (denseScore asc xs)
  else
    let ys := if asc then xs else xs.map (fun v => -v)
    let edges := qcutEdges ys
    if hasAdjDup edges then
      let ranks := xs.map (pctRank asc xs)
      let redges := qcutEdges ranks
      if hasAdjDup redges then .error .labelMismatch
      else .ok (fun v => 1 + (binIdx redges (pctRank asc xs v) : Int))
    else
      .ok (fun v =>
        if asc then 1 + (binIdx edges v : Int) else 5 - (binIdx edges (-v) : Int))

/-- Elementwise application of the selected scoring rule: the value of
score_values on the whole series. -/
def score_values (asc : Bool) (xs : List Rat) : Except RfmError (List Int) :=
  (scoreMode asc xs).map (fun f => xs.map f)

/-- Rows of the table belonging to one customer (one group of
df.groupby(CustomerID)). -/
def rowsOf (t : List Txn) (c : Nat) : List Txn :=
  t.filter (fun r => r.customerID = c)

/-- Distinct customer ids in ascending order: pandas groupby sorts the
group keys. -/
def customersSorted (t : List Txn) : List Nat :=
  ((t.map (fun r => r.customerID)).dedup).insertionSort (· ≤ ·)

/-- Reference date of the recency computation, line 62: the maximum
InvoiceDate of the whole input (as an ordinal; 0 for the empty table,
on which the value is never used). -/
def todayOrd (t : List Txn) : Int :=
  (t.map (fun r => dateOrd r.invoiceDate)).foldr max 0

/-- Ordinal of the most recent invoice of customer c. -/
def lastOrd (t : List Txn) (c : Nat) : Int :=
  ((rowsOf t c).map (fun r => dateOrd r.invoiceDate)).foldr max 0

/-- Recency metric, line 66: (today - x.max()).days for customer c. -/
def recencyOf (t : List Txn) (c : Nat) : Int :=
  todayOrd t - lastOrd t c

/-- Frequency metric, line 67: number of distinct invoice ids of c. -/
def frequencyOf (t : List Txn) (c : Nat) : Nat :=
  ((rowsOf t c).map (fun r => r.invoiceNo)).dedup.length

/-- Monetary metric, line 68: summed TotalAmount of c. -/
def monetaryOf (t : List Txn) (c : Nat) : Rat :=
  ((rowsOf t c).map (fun r => r.totalAmount)).sum

/-- Output row of calculate_rfm_scores: raw metrics, the three scores,
the concatenated RFM_Score string of line 107, and the segment label.
The duplicated reference columns of lines 131-133 (Recency_Days,
Purchase_Frequency, Total_Revenue) are copies of the metric fields and
are not repeated here. -/
structure RfmRec where
  customerID : Nat
  recency : Int
  frequency : Nat
  monetary : Rat
  rScore : Int
  fScore : Int
  mScore : Int
  rfmScore : String
  segment : String
deriving DecidableEq

/-- Assembles the per-customer output rows from the (equal-length, in
customer order) metric and score columns. -/
def buildRecs : List Nat → List Int → List Nat → List Rat →
    List Int → List Int → List Int → List RfmRec
  | c :: cs, rec :: recs, fq :: fqs, mo :: mos, r :: rs, f :: fs, m :: ms =>
      { customerID := c, recency := rec, frequency := fq, monetary := mo,
        rScore := r, fScore := f, mScore := m,
        rfmScore := toString r ++ toString f ++ toString m,
        segment := segment_customers r f m } ::
        buildRecs cs recs fqs mos rs fs ms
  | _, _, _, _, _, _, _ => []

/-- Recency column of the rfm frame, in customer order. -/
def recColumn (t : List Txn) : List Int :=
  (customersSorted t).map (fun c => recencyOf t c)

/-- Frequency column of the rfm frame, in customer order. -/
def fqColumn (t : List Txn) : List Nat :=
  (customersSorted t).map (fun c => frequencyOf t c)

/-- Monetary column of the rfm frame, in customer order. -/
def moColumn (t : List Txn) : List Rat :=
  (customersSorted t).map (fun c => monetaryOf t c)

/-- The RFM pipeline, customer_charts.py lines 55-135: aggregate the
three metrics per customer, score each metric column with score_values
(recency descending at line 102, then frequency and monetary ascending
at lines 103-104, an uncaught pandas exception of the earliest column
propagating first), and classify. -/
def calculateRfmScores (t : List Txn) : Except RfmError (List RfmRec) :=
  match score_values false ((recColumn t).map (fun (z : Int) => (z : Rat))),
        score_values true ((fqColumn t).map (fun (n : Nat) => (n : Rat))),
        score_values true (moColumn t) with
  | .ok rScores, .ok fScores, .ok mScores =>
      .ok (buildRecs (customersSorted t) (recColumn t) (fqColumn t) (moColumn t)
        rScores fScores mScores)
  | .error e, _, _ => .error e
  | .ok _, .error e, _ => .error e
  | .ok _, .ok _, .error e => .error e

/-- Row of the calculate_rfm_scores output belonging to customer c (none
when the customer is absent or the call raised). -/
def rfmLookup (t : List Txn) (c : Nat) : Option RfmRec :=
  match calculateRfmScores t with
  | .ok recs => recs.find? (fun rec => rec.customerID == c)
  | .error _ => none

/-- Five customers with pairwise distinct recencies 40,30,20,10,0 days
(so the R column takes the plain-qcut path), frequencies 1,1,2,2,3 and
monetary totals 10,20,30,40,50 (so the F and M columns score without
raising). -/
def T5 : List Txn :=
  [⟨101, 1, ⟨2020, 1, 1⟩, 10⟩,
   ⟨201, 2, ⟨2020, 1, 11⟩, 20⟩,
   ⟨301, 3, ⟨2020, 1, 21⟩, 15⟩, ⟨302, 3, ⟨2020, 1, 21⟩, 15⟩,
   ⟨401, 4, ⟨2020, 1, 31⟩, 20⟩, ⟨402, 4, ⟨2020, 1, 31⟩, 20⟩,
   ⟨501, 5, ⟨2020, 2, 10⟩, 10⟩, ⟨502, 5, ⟨2020, 2, 10⟩, 20⟩,
   ⟨503, 5, ⟨2020, 2, 10⟩, 20⟩]

/-- Two customers with one invoice each: every customer has frequency 1,
the degenerate distribution of claim C2. -/
def T2 : List Txn :=
  [⟨1, 1, ⟨2020, 1, 1⟩, 10⟩, ⟨2, 2, ⟨2020, 1, 2⟩, 20⟩]

/-- Three customers, one invoice each (frequencies all 1, recencies and
amounts distinct). -/
def T3deg : List Txn :=
  [⟨1, 1, ⟨2020, 1, 1⟩, 10⟩, ⟨2, 2, ⟨2020, 1, 2⟩, 20⟩,
   ⟨3, 3, ⟨2020, 1, 3⟩, 30⟩]

/-- Month ordinal of dt.to_period(M): months are numbered consecutively,
year times 12 plus the zero-based month, so that Period subtraction is
ordinal subtraction (get_cohort_data lines 645-656). -/
def toPeriodM (d : Date) : Int :=
  (d.year : Int) * 12 + (d.month : Int) - 1

/-- Earlier of two rows by invoice timestamp (tie keeps the first), the
accumulator step of the groupby InvoiceDate min of line 648. -/
def minRow (a b : Txn) : Txn :=
  if dateOrd b.invoiceDate < dateOrd a.invoiceDate then b else a

/-- Date of the first purchase of customer c, line 648:
df.groupby(CustomerID)[InvoiceDate].min(). -/
def firstDate (t : List Txn) (c : Nat) : Date :=
  match rowsOf t c with
  | [] => ⟨1970, 1, 1⟩
  | r :: rs => (rs.foldl minRow r).invoiceDate

/-- CohortMonth of customer c, line 649: the calendar month of the first
purchase. -/
def cohortMonthOf (t : List Txn) (c : Nat) : Int :=
  toPeriodM (firstDate t c)

/-- MonthsFromFirstPurchase of a row, lines 655-656: Period subtraction
of the row month and the cohort month of the row's customer. -/
def rowOffset (t : List Txn) (r : Txn) : Int :=
  toPeriodM r.invoiceDate - cohortMonthOf t r.customerID

/-- Distinct cohort months of the table (the row index of the crosstab
of line 659). -/
def cohortMonths (t : List Txn) : List Int :=
  ((customersSorted t).map (fun c => cohortMonthOf t c)).dedup

/-- Distinct observed month offsets (the column index of the crosstab),
in ascending order. -/
def allOffsets (t : List Txn) : List Int :=
  ((t.map (fun r => rowOffset t r)).dedup).insertionSort (· ≤ ·)

/-- Distinct customers of cohort cm transacting at offset k: the raw
crosstab cell with aggfunc nunique of CustomerID (lines 659-662). -/
def nCust (t : List Txn) (cm k : Int) : Nat :=
  ((t.filter (fun r => cohortMonthOf t r.customerID = cm ∧ rowOffset t r = k)).map
    (fun r => r.customerID)).dedup.length

/-- Retention row of cohort cm after the normalization of lines 665-666:
only the offsets with data are present (crosstab leaves NaN where no row
of the cohort exists at the offset), and each present cell is the
distinct-customer count divided by the cohort's offset-0 count, times
100. -/
def cohortRow (t : List Txn) (cm : Int) : List (Int × Rat) :=
  ((allOffsets t).filter (fun k => nCust t cm k ≠ 0)).map
    (fun k => (k, ((nCust t cm k : Rat) / (nCust t cm 0 : Rat)) * 100))

/-- Cohort retention matrix of get_cohort_data (lines 640-668), as a
sparse association list cohort month to row.  On an empty table the
crosstab has no column 0 and the cohort_sizes lookup cohort_data[0] of
line 665 raises KeyError, modelled as the error value. -/
def getCohortData (t : List Txn) : Except RfmError (List (Int × List (Int × Rat))) :=
  match t with
  | [] => .error .keyError
  | _ => .ok ((cohortMonths t).map (fun cm => (cm, cohortRow t cm)))

/-- Cell of the retention matrix at (cohort month cm, offset k); none
models both an absent column and a NaN cell, and also the raised-error
case. -/
def cohortCell (t : List Txn) (cm k : Int) : Option Rat :=
  match getCohortData t with
  | .ok matrix => (matrix.lookup cm).bind (fun row => row.lookup k)
  | .error _ => none

/-- Modelled from the spec wording of claim C8: whole-calendar-month
difference computed from calendar components, (year times 12 plus
month) of one date minus the same of the other. -/
def specMonthDiff (a b : Date) : Int :=
  ((a.year : Int) * 12 + (a.month : Int)) - ((b.year : Int) * 12 + (b.month : Int))

/-- Elapsed-day division, the alternative offset computation that claim
C8 rules out.  Present only for the contrast conjunct of the C8 theorem;
the code never computes this. -/
def daysDiv30 (a b : Date) : Int :=
  (dateOrd a - dateOrd b) / 30

/-- One customer (id 7) whose first purchase is in 2020-01 (cohort month
ordinal 24240) and whose only other transaction is two calendar months
later: the scenario of claim C7. -/
def Tcoh : List Txn :=
  [⟨1, 7, ⟨2020, 1, 15⟩, 10⟩, ⟨2, 7, ⟨2020, 3, 5⟩, 20⟩]

/-- Two customers and three rows: customer 1 with one invoice, customer
2 with two invoices on the next day.  All three metric columns score on
the dense-rank path without raising. -/
def T3w : List Txn :=
  [⟨1, 1, ⟨2020, 1, 1⟩, 10⟩, ⟨2, 2, ⟨2020, 1, 2⟩, 5⟩, ⟨3, 2, ⟨2020, 1, 2⟩, 7⟩]

/-- Output of the pipeline on T3w. -/
def T3wRecs : List RfmRec :=
  [⟨1, 1, 1, 10, 1, 1, 1, "111", "At Risk"⟩,
   ⟨2, 0, 2, 12, 5, 5, 5, "555", "Champions"⟩]

/-- Output row of T3w for customer 2. -/
def T3wRec2 : RfmRec := ⟨2, 0, 2, 12, 5, 5, 5, "555", "Champions"⟩

/-- Models the call frame of calculate_rfm_scores.  Python passes the
DataFrame by object reference, so an in-place mutation inside the callee
would be visible in the caller's object; the pair returned here is (the
caller's object after the call, the function's return value).  Line 60
(df = df.copy()) rebinds the local name to a fresh copy before the
in-place InvoiceDate conversion of line 61 and all later column writes,
which therefore hit only the copy, and the result frame is freshly built
by groupby/reset_index; the caller's object is returned unchanged. -/
def calculateRfmScoresCall (callerDf : List Txn) :
    List Txn × Except RfmError (List RfmRec) :=
  let localDf := callerDf
  (callerDf, calculateRfmScores localDf)

/-- Transposition of the first two rows of T3w. -/
def T3wSwap : List Txn :=
  [⟨2, 2, ⟨2020, 1, 2⟩, 5⟩, ⟨1, 1, ⟨2020, 1, 1⟩, 10⟩, ⟨3, 2, ⟨2020, 1, 2⟩, 7⟩]

/-- C4: segment classification is a deterministic function of the score
triple alone (it is a pure function here); for every (r,f,m) with each
component in [1,5] it returns exactly one of the six labels and agrees
with the first-matching priority rule table taken from the spec; and it
maps (r,f,m) = (4,4,2) to Active Customers, not Champions. -/
theorem C4_segment_priority :
    (∀ r f m : Int, 1 ≤ r → r ≤ 5 → 1 ≤ f → f ≤ 5 → 1 ≤ m → m ≤ 5 →
      segment_customers r f m = segmentSpec r f m ∧
      segment_customers r f m ∈ ["Champions", "Loyal Customers", "Active Customers",
        "Regular Customers", "New Customers", "At Risk"]) ∧
    segment_customers 4 4 2 = "Active Customers" := by
  refine ⟨?_, by decide⟩
  intro r f m hr1 hr2 hf1 hf2 hm1 hm2
  interval_cases r <;> interval_cases f <;> interval_cases m <;>
    exact ⟨by decide, by decide⟩

/-- Witness for C4: the theorem applied at the concrete triple (4,4,2). -/
theorem C4_segment_priority_witness :
    segment_customers 4 4 2 = segmentSpec 4 4 2 ∧
    segment_customers 4 4 2 ∈ ["Champions", "Loyal Customers", "Active Customers",
      "Regular Customers", "New Customers", "At Risk"] :=
  C4_segment_priority.1 4 4 2 (by decide) (by decide) (by decide) (by decide)
    (by decide) (by decide)

/-- C1 (failing-input evaluation): on T5 the recency of customer 5 is 0
and of customer 1 is 40, yet the plain-qcut scoring path gives customer
5 the R score 1 and customer 1 the R score 5: the most recently active
customer scores lowest, refuting anti-monotonicity of the R score in raw
recency.  The cause is line 90, pd.qcut(-series, labels=[5,4,3,2,1]),
which negates the series and also reverses the labels: the two
inversions cancel, contradicting the comment of line 102 (Lower recency
is better), the dense-rank path, the rank-percentile fallback path and
the earlier commented-out implementation of line 28, all of which give
recent customers the high score (dense_path_recency_antimono and
fallback_path_recency_antimono prove the property for those two paths,
so the plain-qcut branch is the single deviating path). -/
theorem C1_qcut_path_inverts_recency :
    (rfmLookup T5 5).map (fun rec => rec.recency) = some 0 ∧
    (rfmLookup T5 1).map (fun rec => rec.recency) = some 40 ∧
    (rfmLookup T5 5).map (fun rec => rec.rScore) = some 1 ∧
    (rfmLookup T5 1).map (fun rec => rec.rScore) = some 5 := by
  refine ⟨?_, ?_, ?_, ?_⟩ <;> with_unfolding_all rfl

/-- C2 (failing-input evaluation): on the degenerate table where every
customer has frequency 1, calculate_rfm_scores raises instead of
returning scores: the dense-rank branch computes
(ranks - 1) / (max_rank - 1) = 0/0 = NaN for the all-ties frequency
column and the astype(int) of line 83 raises ValueError, contradicting
the claim that scoring must not raise there. -/
theorem C2_degenerate_frequency_raises :
    calculateRfmScores T2 = .error .nanToInt := by
  with_unfolding_all rfl

/-- Counterexample for C3 as stated: on T3deg the frequency scores are
undefined (only one distinct value to rank), and instead of defaulting
the undefined scores to the middle score 3 the function raises: there is
no output at all, and no customer ever receives the claimed default. -/
theorem C3_no_default_to_three :
    calculateRfmScores T3deg = .error .nanToInt ∧
    rfmLookup T3deg 1 = none ∧ rfmLookup T3deg 2 = none ∧
    rfmLookup T3deg 3 = none := by
  refine ⟨?_, ?_, ?_, ?_⟩ <;> with_unfolding_all rfl

/-- C5 counterexample: on the zero-row table neither core function
surfaces the typed EmptyInputError the claim requires (no such error
exists in the code): calculate_rfm_scores returns an empty aggregate and
get_cohort_data fails with an untyped KeyError. -/
theorem C5_no_typed_empty_error :
    calculateRfmScores [] ≠ .error .emptyInput ∧
    getCohortData [] ≠ .error .emptyInput := by
  constructor
  · intro h
    rw [show calculateRfmScores [] = .ok [] from by with_unfolding_all rfl] at h
    exact Except.noConfusion h
  · intro h
    rw [show getCohortData [] = .error .keyError from rfl] at h
    simp at h

/-- C5 amended behaviour: on the zero-row table calculate_rfm_scores
returns the empty output table (an empty aggregate, no error), and
get_cohort_data raises the untyped KeyError of the cohort_data[0]
column lookup. -/
theorem C5_empty_input_behaviour :
    calculateRfmScores [] = .ok [] ∧
    getCohortData [] = .error .keyError := by
  exact ⟨by with_unfolding_all rfl, rfl⟩

/-- C8: the month offset used by the cohort computation (Period
subtraction of to_period(M) values) equals the whole-calendar-month
component difference for every row of every table, and differs from
elapsed-day division at a month boundary: from 2020-01-31 to 2020-02-01
the calendar difference is 1 whole month while 1 elapsed day divided by
30 is 0. -/
theorem C8_offset_is_calendar_month_difference :
    (∀ (t : List Txn) (r : Txn),
      rowOffset t r = specMonthDiff r.invoiceDate (firstDate t r.customerID)) ∧
    specMonthDiff ⟨2020, 2, 1⟩ ⟨2020, 1, 31⟩ = 1 ∧
    daysDiv30 ⟨2020, 2, 1⟩ ⟨2020, 1, 31⟩ = 0 := by
  refine ⟨fun t r => ?_, by with_unfolding_all rfl, by with_unfolding_all rfl⟩
  simp only [rowOffset, cohortMonthOf, toPeriodM, specMonthDiff]
  ring

theorem clipScore_range (z : Int) : 1 ≤ clipScore z ∧ clipScore z ≤ 5 := by
  unfold clipScore
  constructor
  · exact le_max_left 1 _
  · exact max_le (by norm_num) (min_le_left 5 z)

theorem binIdx_le_four (edges : List Rat) (v : Rat) : binIdx edges v ≤ 4 := by
  unfold binIdx
  calc ((edges.drop 1).take 4).countP (fun e => decide (e < v))
      ≤ ((edges.drop 1).take 4).length := List.countP_le_length _
    _ ≤ 4 := by
        rw [List.length_take]
        exact min_le_left 4 _

theorem one_add_binIdx_range (edges : List Rat) (v : Rat) :
    1 ≤ 1 + (binIdx edges v : Int) ∧ 1 + (binIdx edges v : Int) ≤ 5 := by
  have hb : ((binIdx edges v : Nat) : Int) ≤ 4 := by
    exact_mod_cast binIdx_le_four edges v
  have h0 : (0 : Int) ≤ ((binIdx edges v : Nat) : Int) := Int.ofNat_nonneg _
  omega

theorem five_sub_binIdx_range (edges : List Rat) (v : Rat) :
    1 ≤ 5 - (binIdx edges v : Int) ∧ 5 - (binIdx edges v : Int) ≤ 5 := by
  have hb : ((binIdx edges v : Nat) : Int) ≤ 4 := by
    exact_mod_cast binIdx_le_four edges v
  have h0 : (0 : Int) ≤ ((binIdx edges v : Nat) : Int) := Int.ofNat_nonneg _
  omega

theorem scoreMode_range {asc : Bool} {xs : List Rat} {f : Rat → Int}
    (h : scoreMode asc xs = .ok f) (v : Rat) : 1 ≤ f v ∧ f v ≤ 5 := by
  unfold scoreMode at h
  by_cases h1 : xs.dedup.length < 5
  · rw [if_pos h1] at h
    by_cases h2 : xs.dedup.length = 1
    · rw [if_pos h2] at h
      exact Except.noConfusion h
    · rw [if_neg h2] at h
      injection h with h
      subst h
      exact clipScore_range _
  · rw [if_neg h1] at h
    dsimp only at h
    by_cases hdup : hasAdjDup (qcutEdges (if asc then xs else xs.map fun u => -u)) = true
    · rw [if_pos hdup] at h
      by_cases hdup2 : hasAdjDup (qcutEdges (xs.map (pctRank asc xs))) = true
      · rw [if_pos hdup2] at h
        exact Except.noConfusion h
      · rw [if_neg hdup2] at h
        injection h with h
        subst h
        exact one_add_binIdx_range _ _
    · rw [if_neg hdup] at h
      injection h with h
      subst h
      dsimp only
      by_cases ha : asc = true
      · rw [if_pos ha]
        exact one_add_binIdx_range _ _
      · rw [if_neg ha]
        exact five_sub_binIdx_range _ _

theorem score_values_range {asc : Bool} {xs : List Rat} {l : List Int}
    (h : score_values asc xs = .ok l) : ∀ z ∈ l, 1 ≤ z ∧ z ≤ 5 := by
  unfold score_values at h
  cases hm : scoreMode asc xs with
  | error e => rw [hm] at h; exact absurd h (by simp [Except.map])
  | ok f =>
      rw [hm] at h
      simp only [Except.map, Except.ok.injEq] at h
      subst h
      intro z hz
      obtain ⟨v, _, hv⟩ := List.mem_map.mp hz
      rw [← hv]
      exact scoreMode_range hm v

theorem buildRecs_scores_mem :
    ∀ (cs : List Nat) (recs : List Int) (fqs : List Nat) (mos : List Rat)
      (rs fs ms : List Int) (rec : RfmRec),
      rec ∈ buildRecs cs recs fqs mos rs fs ms →
      rec.rScore ∈ rs ∧ rec.fScore ∈ fs ∧ rec.mScore ∈ ms := by
  intro cs
  induction cs with
  | nil => intro recs fqs mos rs fs ms rec h; simp [buildRecs] at h
  | cons c cs ih =>
      intro recs fqs mos rs fs ms rec h
      match recs, fqs, mos, rs, fs, ms with
      | [], _, _, _, _, _ => simp [buildRecs] at h
      | _ :: _, [], _, _, _, _ => simp [buildRecs] at h
      | _ :: _, _ :: _, [], _, _, _ => simp [buildRecs] at h
      | _ :: _, _ :: _, _ :: _, [], _, _ => simp [buildRecs] at h
      | _ :: _, _ :: _, _ :: _, _ :: _, [], _ => simp [buildRecs] at h
      | _ :: _, _ :: _, _ :: _, _ :: _, _ :: _, [] => simp [buildRecs] at h
      | rec0 :: recs, fq :: fqs, mo :: mos, r :: rs, f :: fs, m :: ms =>
          rw [buildRecs, List.mem_cons] at h
          rcases h with h | h
          · subst h
            exact ⟨List.mem_cons_self _ _, List.mem_cons_self _ _, List.mem_cons_self _ _⟩
          · obtain ⟨h1, h2, h3⟩ := ih recs fqs mos rs fs ms rec h
            exact ⟨List.mem_cons_of_mem _ h1, List.mem_cons_of_mem _ h2,
              List.mem_cons_of_mem _ h3⟩

/-- C3, amended: whenever calculate_rfm_scores returns an output table,
every customer row carries R, F and M scores that are integers in the
range 1..5 (never missing, never out of range).  The further clause of
the claim, that a score which cannot be computed defaults to the middle
score 3, does not hold of the code: when ranking is impossible the
function raises instead (as the evaluation on T3deg shows), and the
fillna(3) of line 98 is unreachable. -/
theorem C3_score_range {t : List Txn} {recs : List RfmRec}
    (h : calculateRfmScores t = .ok recs) :
    ∀ rec ∈ recs,
      (1 ≤ rec.rScore ∧ rec.rScore ≤ 5) ∧
      (1 ≤ rec.fScore ∧ rec.fScore ≤ 5) ∧
      (1 ≤ rec.mScore ∧ rec.mScore ≤ 5) := by
  unfold calculateRfmScores at h
  cases hr : score_values false ((recColumn t).map (fun (z : Int) => (z : Rat))) with
  | error e => rw [hr] at h; exact Except.noConfusion h
  | ok rScores =>
  rw [hr] at h
  cases hf : score_values true ((fqColumn t).map (fun (n : Nat) => (n : Rat))) with
  | error e => rw [hf] at h; exact Except.noConfusion h
  | ok fScores =>
  rw [hf] at h
  cases hm : score_values true (moColumn t) with
  | error e => rw [hm] at h; exact Except.noConfusion h
  | ok mScores =>
  rw [hm] at h
  injection h with h
  intro rec hrec
  rw [← h] at hrec
  obtain ⟨h1, h2, h3⟩ := buildRecs_scores_mem _ _ _ _ _ _ _ _ hrec
  exact ⟨score_values_range hr _ h1, score_values_range hf _ h2,
    score_values_range hm _ h3⟩

/-- Witness for C3: the amended range theorem applied to the concrete
table T3w (whose output the kernel computes) at the row of customer 2. -/
theorem C3_score_range_witness :
    (1 ≤ T3wRec2.rScore ∧ T3wRec2.rScore ≤ 5) ∧
    (1 ≤ T3wRec2.fScore ∧ T3wRec2.fScore ≤ 5) ∧
    (1 ≤ T3wRec2.mScore ∧ T3wRec2.mScore ≤ 5) :=
  @C3_score_range T3w T3wRecs (by with_unfolding_all rfl) T3wRec2
    (of_decide_eq_true (by with_unfolding_all rfl))

/-- C9: calculate_rfm_scores does not modify its input: after the call
the caller's table is identical to what was passed in, and the result is
computed from (a copy of) that same table. -/
theorem C9_input_unchanged :
    ∀ t : List Txn, (calculateRfmScoresCall t).1 = t ∧
      (calculateRfmScoresCall t).2 = calculateRfmScores t :=
  fun _ => ⟨rfl, rfl⟩

theorem foldr_max_perm {l l' : List Int} (h : l.Perm l') (b : Int) :
    l.foldr max b = l'.foldr max b :=
  @List.Perm.foldr_eq _ _ max _ _ ⟨max_left_comm⟩ h b

theorem insertionSortNat_perm_eq {l l' : List Nat} (h : l.Perm l') :
    l.insertionSort (· ≤ ·) = l'.insertionSort (· ≤ ·) :=
  List.eq_of_perm_of_sorted
    (((List.perm_insertionSort _ l).trans h).trans (List.perm_insertionSort _ l').symm)
    (List.sorted_insertionSort _ l) (List.sorted_insertionSort _ l')

theorem customersSorted_perm {t t' : List Txn} (h : t.Perm t') :
    customersSorted t = customersSorted t' :=
  insertionSortNat_perm_eq ((h.map _).dedup)

theorem rowsOf_perm {t t' : List Txn} (h : t.Perm t') (c : Nat) :
    (rowsOf t c).Perm (rowsOf t' c) :=
  h.filter _

theorem todayOrd_perm {t t' : List Txn} (h : t.Perm t') :
    todayOrd t = todayOrd t' :=
  foldr_max_perm (h.map _) 0

theorem lastOrd_perm {t t' : List Txn} (h : t.Perm t') (c : Nat) :
    lastOrd t c = lastOrd t' c :=
  foldr_max_perm ((rowsOf_perm h c).map _) 0

theorem recencyOf_perm {t t' : List Txn} (h : t.Perm t') :
    recencyOf t = recencyOf t' :=
  funext fun c => by unfold recencyOf; rw [todayOrd_perm h, lastOrd_perm h c]

theorem frequencyOf_perm {t t' : List Txn} (h : t.Perm t') :
    frequencyOf t = frequencyOf t' :=
  funext fun c => (((rowsOf_perm h c).map _).dedup).length_eq

theorem monetaryOf_perm {t t' : List Txn} (h : t.Perm t') :
    monetaryOf t = monetaryOf t' :=
  funext fun c => ((rowsOf_perm h c).map _).sum_eq

theorem recColumn_perm {t t' : List Txn} (h : t.Perm t') :
    recColumn t = recColumn t' := by
  unfold recColumn
  rw [customersSorted_perm h, recencyOf_perm h]

theorem fqColumn_perm {t t' : List Txn} (h : t.Perm t') :
    fqColumn t = fqColumn t' := by
  unfold fqColumn
  rw [customersSorted_perm h, frequencyOf_perm h]

theorem moColumn_perm {t t' : List Txn} (h : t.Perm t') :
    moColumn t = moColumn t' := by
  unfold moColumn
  rw [customersSorted_perm h, monetaryOf_perm h]

theorem calculateRfmScores_perm {t t' : List Txn} (h : t.Perm t') :
    calculateRfmScores t = calculateRfmScores t' := by
  unfold calculateRfmScores
  rw [recColumn_perm h, fqColumn_perm h, moColumn_perm h, customersSorted_perm h]

/-- C10: the output of calculate_rfm_scores is invariant under
permutation of the input rows.  Reordering the table leaves the whole
result unchanged (groupby sorts the customer keys, and every aggregate
and both tie-handling rank constructions depend only on the multiset of
rows), so in particular every customer keeps identical Recency,
Frequency and Monetary values, identical R, F, M scores and the
identical segment label, and the two runs raise identically. -/
theorem C10_permutation_invariance (t t' : List Txn) (h : t.Perm t') :
    calculateRfmScores t = calculateRfmScores t' ∧
    ∀ c, rfmLookup t c = rfmLookup t' c := by
  have he := calculateRfmScores_perm h
  exact ⟨he, fun c => by unfold rfmLookup; rw [he]⟩

/-- Witness for C10: the invariance theorem applied to the concrete
transposed pair of tables. -/
theorem C10_permutation_invariance_witness :
    calculateRfmScores T3wSwap = calculateRfmScores T3w ∧
    ∀ c, rfmLookup T3wSwap c = rfmLookup T3w c :=
  C10_permutation_invariance T3wSwap T3w (List.Perm.swap _ _ _)

theorem lookup_map_of_mem {α β : Type} [DecidableEq α] {ks : List α} {g : α → β}
    {k : α} (h : k ∈ ks) :
    (ks.map (fun x => (x, g x))).lookup k = some (g k) := by
  induction ks with
  | nil => cases h
  | cons a ks ih =>
      rw [List.map_cons]
      by_cases hk : k = a
      · subst hk
        simp [List.lookup]
      · rw [List.mem_cons] at h
        rcases h with h | h
        · exact absurd h hk
        · simp only [List.lookup]
          rw [show (k == a) = false from beq_eq_false_iff_ne.mpr hk]
          exact ih h

theorem lookup_map_of_not_mem {α β : Type} [DecidableEq α] {ks : List α} {g : α → β}
    {k : α} (h : k ∉ ks) :
    (ks.map (fun x => (x, g x))).lookup k = none := by
  induction ks with
  | nil => rfl
  | cons a ks ih =>
      rw [List.map_cons]
      have hk : ¬k = a := fun he => h (he ▸ List.mem_cons_self a ks)
      simp only [List.lookup]
      rw [show (k == a) = false from beq_eq_false_iff_ne.mpr hk]
      exact ih (fun hm => h (List.mem_cons_of_mem a hm))

theorem minRow_eq_or (a b : Txn) : minRow a b = a ∨ minRow a b = b := by
  unfold minRow
  split_ifs
  · exact Or.inr rfl
  · exact Or.inl rfl

theorem foldl_minRow_mem : ∀ (rs : List Txn) (a : Txn), rs.foldl minRow a ∈ a :: rs := by
  intro rs
  induction rs with
  | nil => intro a; exact List.mem_singleton.mpr rfl
  | cons b rs ih =>
      intro a
      rw [List.foldl_cons]
      rcases List.mem_cons.mp (ih (minRow a b)) with h | h
      · rw [h]
        rcases minRow_eq_or a b with h2 | h2 <;> rw [h2]
        · exact List.mem_cons_self _ _
        · exact List.mem_cons_of_mem _ (List.mem_cons_self _ _)
      · exact List.mem_cons_of_mem _ (List.mem_cons_of_mem _ h)

theorem mem_rowsOf {t : List Txn} {c : Nat} {r : Txn} :
    r ∈ rowsOf t c ↔ r ∈ t ∧ r.customerID = c := by
  unfold rowsOf
  simp [List.mem_filter]

theorem mem_customersSorted {t : List Txn} {c : Nat} :
    c ∈ customersSorted t ↔ c ∈ t.map (fun r => r.customerID) := by
  unfold customersSorted
  rw [(List.perm_insertionSort _ _).mem_iff, List.mem_dedup]

theorem rowsOf_ne_nil {t : List Txn} {c : Nat} (h : c ∈ customersSorted t) :
    rowsOf t c ≠ [] := by
  obtain ⟨r, hr, hc⟩ := List.mem_map.mp (mem_customersSorted.mp h)
  exact List.ne_nil_of_mem (mem_rowsOf.mpr ⟨hr, hc⟩)

theorem exists_first_row {t : List Txn} {c : Nat} (h : rowsOf t c ≠ []) :
    ∃ r ∈ rowsOf t c, r.invoiceDate = firstDate t c := by
  unfold firstDate
  cases hr : rowsOf t c with
  | nil => exact absurd hr h
  | cons r0 rs =>
      exact ⟨rs.foldl minRow r0, foldl_minRow_mem rs r0, rfl⟩

theorem first_row_offset_zero {t : List Txn} {c : Nat} {r : Txn}
    (hr : r ∈ rowsOf t c) (hd : r.invoiceDate = firstDate t c) :
    rowOffset t r = 0 := by
  unfold rowOffset cohortMonthOf
  rw [(mem_rowsOf.mp hr).2, hd, sub_self]

theorem cohort_has_member {t : List Txn} {cm : Int} (h : cm ∈ cohortMonths t) :
    ∃ c ∈ customersSorted t, cohortMonthOf t c = cm := by
  unfold cohortMonths at h
  rw [List.mem_dedup] at h
  exact List.mem_map.mp h

theorem exists_row_offset_zero {t : List Txn} {cm : Int} (h : cm ∈ cohortMonths t) :
    ∃ r ∈ t, cohortMonthOf t r.customerID = cm ∧ rowOffset t r = 0 := by
  obtain ⟨c, hc, hcm⟩ := cohort_has_member h
  obtain ⟨r, hr, hd⟩ := exists_first_row (rowsOf_ne_nil hc)
  refine ⟨r, (mem_rowsOf.mp hr).1, ?_, first_row_offset_zero hr hd⟩
  rw [(mem_rowsOf.mp hr).2]
  exact hcm

theorem mem_allOffsets {t : List Txn} {r : Txn} (hr : r ∈ t) :
    rowOffset t r ∈ allOffsets t := by
  unfold allOffsets
  rw [(List.perm_insertionSort _ _).mem_iff, List.mem_dedup]
  exact List.mem_map_of_mem _ hr

theorem nCust_offset_zero_ne_zero {t : List Txn} {cm : Int}
    (h : cm ∈ cohortMonths t) : nCust t cm 0 ≠ 0 := by
  obtain ⟨r, hrt, hcm, hoff⟩ := exists_row_offset_zero h
  unfold nCust
  have hrf : r ∈ t.filter
      (fun r => cohortMonthOf t r.customerID = cm ∧ rowOffset t r = 0) :=
    List.mem_filter.mpr ⟨hrt, by simp [hcm, hoff]⟩
  have hmem : r.customerID ∈ (t.filter
      (fun r => cohortMonthOf t r.customerID = cm ∧ rowOffset t r = 0)).map
      (fun r => r.customerID) := List.mem_map_of_mem _ hrf
  intro hlen
  exact List.ne_nil_of_mem (List.mem_dedup.mpr hmem) (List.length_eq_zero.mp hlen)

theorem exists_row_of_nCust_ne_zero {t : List Txn} {cm k : Int}
    (h : nCust t cm k ≠ 0) :
    ∃ r ∈ t, cohortMonthOf t r.customerID = cm ∧ rowOffset t r = k := by
  unfold nCust at h
  cases hf : t.filter (fun r => cohortMonthOf t r.customerID = cm ∧ rowOffset t r = k) with
  | nil => rw [hf] at h; simp at h
  | cons r rest =>
      have hr : r ∈ t.filter
          (fun r => cohortMonthOf t r.customerID = cm ∧ rowOffset t r = k) := by
        rw [hf]; exact List.mem_cons_self _ _
      have hp := List.mem_filter.mp hr
      have hp2 := of_decide_eq_true hp.2
      exact ⟨r, hp.1, hp2.1, hp2.2⟩

theorem cohortRow_lookup_some {t : List Txn} {cm k : Int} (h : nCust t cm k ≠ 0) :
    (cohortRow t cm).lookup k =
      some (((nCust t cm k : Rat) / (nCust t cm 0 : Rat)) * 100) := by
  unfold cohortRow
  apply lookup_map_of_mem
  apply List.mem_filter.mpr
  refine ⟨?_, by simpa using h⟩
  obtain ⟨r, hrt, _, hoff⟩ := exists_row_of_nCust_ne_zero h
  rw [← hoff]
  exact mem_allOffsets hrt

theorem cohortRow_lookup_none {t : List Txn} {cm k : Int} (h : nCust t cm k = 0) :
    (cohortRow t cm).lookup k = none := by
  unfold cohortRow
  apply lookup_map_of_not_mem
  intro hmem
  have := (List.mem_filter.mp hmem).2
  simp [h] at this

theorem cohortMonths_nil : cohortMonths [] = [] := rfl

theorem cohortCell_eq_row_lookup {t : List Txn} {cm k : Int}
    (hm : cm ∈ cohortMonths t) :
    cohortCell t cm k = (cohortRow t cm).lookup k := by
  unfold cohortCell getCohortData
  cases t with
  | nil => rw [cohortMonths_nil] at hm; cases hm
  | cons r rest =>
      dsimp only
      rw [lookup_map_of_mem hm]
      rfl

/-- C6: for every non-empty table, every cohort row of the retention
matrix carries the value exactly 100 at month offset 0: the offset-0
cell counts all customers of the cohort (each customer's first purchase
lies in the cohort month, at offset 0), the cohort size is therefore
non-zero, and the row is normalized by that same count. -/
theorem C6_offset_zero_is_100 (t : List Txn) (ht : t ≠ []) :
    ∃ M, getCohortData t = .ok M ∧
      ∀ cm ∈ cohortMonths t,
        ∃ row, (cm, row) ∈ M ∧ row.lookup 0 = some 100 := by
  cases t with
  | nil => exact absurd rfl ht
  | cons r rest =>
      refine ⟨_, rfl, ?_⟩
      intro cm hm
      refine ⟨cohortRow (r :: rest) cm, List.mem_map_of_mem _ hm, ?_⟩
      have h0 := nCust_offset_zero_ne_zero hm
      rw [cohortRow_lookup_some h0, div_self (Nat.cast_ne_zero.mpr h0), one_mul]

/-- Witness for C6: the theorem applied to the concrete table Tcoh. -/
theorem C6_offset_zero_is_100_witness :
    ∃ M, getCohortData Tcoh = .ok M ∧
      ∀ cm ∈ cohortMonths Tcoh,
        ∃ row, (cm, row) ∈ M ∧ row.lookup 0 = some 100 :=
  C6_offset_zero_is_100 Tcoh (by simp [Tcoh])

/-- C7: the retention matrix is sparse with missing (null) cells exactly
where the cohort has no transaction at that offset: for every table and
every cohort of it, the cell at offset k is absent if and only if no
customer of the cohort transacted k months after the cohort month.  On
the concrete scenario table Tcoh (one customer, transactions in the
cohort month and two calendar months later) the cell at offset 2 is
present and equals 100 while the cell at offset 1 is null. -/
theorem C7_sparse_null_cells :
    (∀ (t : List Txn) (cm k : Int), cm ∈ cohortMonths t →
      (cohortCell t cm k = none ↔ nCust t cm k = 0)) ∧
    cohortCell Tcoh 24240 2 = some 100 ∧
    cohortCell Tcoh 24240 1 = none := by
  refine ⟨?_, by with_unfolding_all rfl, by with_unfolding_all rfl⟩
  intro t cm k hm
  rw [cohortCell_eq_row_lookup hm]
  constructor
  · intro hnone
    by_contra h
    rw [cohortRow_lookup_some h] at hnone
    exact Option.noConfusion hnone
  · exact cohortRow_lookup_none

/-- Witness for C7: the general equivalence applied to the concrete
table Tcoh at cohort 24240 (2020-01) and offset 1. -/
theorem C7_sparse_null_cells_witness :
    cohortCell Tcoh 24240 1 = none ↔ nCust Tcoh 24240 1 = 0 :=
  C7_sparse_null_cells.1 Tcoh 24240 1 (of_decide_eq_true (by with_unfolding_all rfl))

theorem ratFloor_eq_floor (q : Rat) : q.floor = ⌊q⌋ := by
  rw [Rat.floor_def]
  exact Rat.floor_def' q

theorem roundHalfEven_mono {a b : Rat} (hab : a ≤ b) :
    roundHalfEven a ≤ roundHalfEven b := by
  unfold roundHalfEven
  rw [ratFloor_eq_floor, ratFloor_eq_floor]
  dsimp only
  have hf : ⌊a⌋ ≤ ⌊b⌋ := Int.floor_mono hab
  by_cases h1 : ⌊a⌋ = ⌊b⌋
  · have hr : a - (⌊b⌋ : Rat) ≤ b - (⌊b⌋ : Rat) := by
      linarith
    rw [h1]
    split_ifs <;>
      first
        | omega
        | (exfalso; linarith)
  · have h2 : ⌊a⌋ + 1 ≤ ⌊b⌋ := by omega
    split_ifs <;> omega

theorem clipScore_mono {z1 z2 : Int} (h : z1 ≤ z2) :
    clipScore z1 ≤ clipScore z2 := by
  unfold clipScore
  exact max_le_max le_rfl (min_le_min le_rfl h)

theorem denseRank_desc_antimono {xs : List Rat} {v1 v2 : Rat} (h : v1 < v2) :
    denseRank false xs v2 ≤ denseRank false xs v1 := by
  unfold denseRank
  refine Nat.add_le_add_left (List.countP_mono_left ?_) 1
  intro u _ hu
  rw [if_neg Bool.false_ne_true] at hu ⊢
  rw [decide_eq_true_eq] at hu ⊢
  exact lt_trans h hu

theorem denseScore_recency_antimono {xs : List Rat} {v1 v2 : Rat}
    (hd : 2 ≤ xs.dedup.length) (h : v1 < v2) :
    denseScore false xs v2 ≤ denseScore false xs v1 := by
  unfold denseScore
  apply clipScore_mono
  apply roundHalfEven_mono
  have hr : denseRank false xs v2 ≤ denseRank false xs v1 :=
    denseRank_desc_antimono h
  have hrq : ((denseRank false xs v2 : Nat) : Rat) ≤ ((denseRank false xs v1 : Nat) : Rat) := by
    exact_mod_cast hr
  have hdpos : (0 : Rat) < (xs.dedup.length : Rat) - 1 := by
    have h2 : (2 : Rat) ≤ (xs.dedup.length : Rat) := by exact_mod_cast hd
    linarith
  have hdiv : (((denseRank false xs v2 : Nat) : Rat) - 1) / ((xs.dedup.length : Rat) - 1)
      ≤ (((denseRank false xs v1 : Nat) : Rat) - 1) / ((xs.dedup.length : Rat) - 1) := by
    apply div_le_div_of_nonneg_right ?_ hdpos.le
    linarith
  linarith

/-- Supporting theorem for C1: the claimed recency anti-monotonicity
does hold on the dense-rank scoring path (fewer than five distinct
values): whenever scoring succeeds there, the more recently active of
two customers never gets the lower R score. -/
theorem dense_path_recency_antimono {xs : List Rat} {f : Rat → Int}
    (hlen : xs.dedup.length < 5) (h : scoreMode false xs = .ok f)
    {v1 v2 : Rat} (hlt : v1 < v2) (h1 : v1 ∈ xs) :
    f v2 ≤ f v1 := by
  unfold scoreMode at h
  rw [if_pos hlen] at h
  by_cases he : xs.dedup.length = 1
  · rw [if_pos he] at h
    exact Except.noConfusion h
  · rw [if_neg he] at h
    injection h with h
    subst h
    refine denseScore_recency_antimono ?_ hlt
    have hv : v1 ∈ xs.dedup := List.mem_dedup.mpr h1
    have hne : xs.dedup.length ≠ 0 := by
      intro h0
      rw [List.length_eq_zero] at h0
      rw [h0] at hv
      cases hv
    omega

theorem countP_gt_add_eq_le {v1 v2 : Rat} (hlt : v1 < v2) (xs : List Rat) :
    xs.countP (fun u => decide (v2 < u)) + xs.countP (fun u => decide (u = v2))
      ≤ xs.countP (fun u => decide (v1 < u)) := by
  induction xs with
  | nil => simp
  | cons a xs ih =>
      rw [List.countP_cons, List.countP_cons, List.countP_cons]
      by_cases hgt : v2 < a
      · have hgt1 : v1 < a := lt_trans hlt hgt
        have hne : ¬(a = v2) := fun he => absurd (he ▸ hgt) (lt_irrefl _)
        simp [hgt, hgt1, hne]
        omega
      · by_cases heq : a = v2
        · subst heq
          simp [lt_self_iff_false, hlt]
          omega
        · simp [hgt, heq]
          by_cases hgt1 : v1 < a <;> simp [hgt1] <;> omega

theorem length_pos_rat_of_mem {xs : List Rat} {v : Rat} (h : v ∈ xs) :
    (0 : Rat) < (xs.length : Rat) := by
  have : 0 < xs.length := List.length_pos.mpr (List.ne_nil_of_mem h)
  exact_mod_cast this

theorem pctRank_desc_antimono {xs : List Rat} {v1 v2 : Rat}
    (h2 : v2 ∈ xs) (hlt : v1 < v2) :
    pctRank false xs v2 ≤ pctRank false xs v1 := by
  unfold pctRank
  dsimp only
  simp only [if_neg Bool.false_ne_true]
  have hc := countP_gt_add_eq_le hlt xs
  have hcq : ((xs.countP (fun u => decide (v2 < u)) : Nat) : Rat)
      + ((xs.countP (fun u => decide (u = v2)) : Nat) : Rat)
      ≤ ((xs.countP (fun u => decide (v1 < u)) : Nat) : Rat) := by
    exact_mod_cast hc
  have he1 : (0 : Rat) ≤ ((xs.countP (fun u => decide (u = v1)) : Nat) : Rat) := by
    positivity
  have he2 : (0 : Rat) ≤ ((xs.countP (fun u => decide (u = v2)) : Nat) : Rat) := by
    positivity
  apply div_le_div_of_nonneg_right ?_ (length_pos_rat_of_mem h2).le
  linarith

theorem binIdx_mono {edges : List Rat} {w1 w2 : Rat} (h : w1 ≤ w2) :
    binIdx edges w1 ≤ binIdx edges w2 := by
  unfold binIdx
  apply List.countP_mono_left
  intro e _ he
  rw [decide_eq_true_eq] at he ⊢
  exact lt_of_lt_of_le he h

/-- Supporting theorem for C1: the claimed recency anti-monotonicity
also holds on the rank-percentile fallback path (reached when the plain
qcut raises on duplicate bin edges): whenever that path succeeds, the
more recently active of two customers never gets the lower R score. -/
theorem fallback_path_recency_antimono {xs : List Rat} {f : Rat → Int}
    (hlen : ¬ xs.dedup.length < 5)
    (hdup : hasAdjDup (qcutEdges (xs.map fun u => -u)) = true)
    (h : scoreMode false xs = .ok f)
    {v1 v2 : Rat} (hlt : v1 < v2) (h2 : v2 ∈ xs) :
    f v2 ≤ f v1 := by
  unfold scoreMode at h
  rw [if_neg hlen] at h
  dsimp only at h
  rw [if_neg Bool.false_ne_true] at h
  rw [if_pos hdup] at h
  by_cases hdup2 : hasAdjDup (qcutEdges (xs.map (pctRank false xs))) = true
  · rw [if_pos hdup2] at h
    exact Except.noConfusion h
  · rw [if_neg hdup2] at h
    injection h with h
    subst h
    dsimp only
    have hr := pctRank_desc_antimono h2 hlt
    have hb : binIdx (qcutEdges (xs.map (pctRank false xs))) (pctRank false xs v2)
        ≤ binIdx (qcutEdges (xs.map (pctRank false xs))) (pctRank false xs v1) :=
      binIdx_mono hr
    have hbq : ((binIdx (qcutEdges (xs.map (pctRank false xs)))
        (pctRank false xs v2) : Nat) : Int)
        ≤ ((binIdx (qcutEdges (xs.map (pctRank false xs)))
        (pctRank false xs v1) : Nat) : Int) := by
      exact_mod_cast hb
    omega

end OnlineRetail
